import Mathlib

/-!
Verification development for the dominoes game server.

The definitions below are a shallow embedding of the game engine found in
`src/server.mjs` (the authoritative socket handlers: `make-move` and
`draw-tile`), the shared game-logic module `src/lib/gameLogic.ts`
(`generateDominoSet`, `dealTiles`, `canPlaceTile`, `canPlayerMove`,
`calculateScore`) and the draw handler of `src/app/api/socket/route.ts`.
JavaScript in-place mutation is modelled by explicit state passing; every
early `return` after a `socket.emit('invalid-move', ...)` is modelled by
returning the rejection together with the state built so far.
-/

namespace Dominoes

/-- A domino tile, as produced by `generateDominoSet`:
`{ id: "i-j", left: i, right: j, isDouble: i === j }`.  The `id` is the
tile's stable identity; `left`/`right` are its current orientation. -/
structure Tile where
  id : String
  left : Nat
  right : Nat
  isDouble : Bool
deriving DecidableEq, Repr

/-- 2-D canvas position `{x, y}` (cosmetic, but part of the state). -/
structure Position where
  x : Int
  y : Int
deriving DecidableEq, Repr

/-- A tile placed on the board: `{ tile, position, orientation, rotation }`.
`server.mjs` always uses `orientation: 'horizontal', rotation: 0`. -/
structure PlacedTile where
  tile : Tile
  position : Position
  orientation : String
  rotation : Int
deriving DecidableEq, Repr

/-- A board side, the `'left' | 'right'` side tag of a `GameMove`. -/
inductive Side where
  | left
  | right
deriving DecidableEq, Repr

/-- A board end `{ value, position, side }`. -/
structure BoardEnd where
  value : Nat
  position : Position
  side : Side
deriving DecidableEq, Repr

/-- A participant: `{ id, name, tiles, score, isAI, isReady }`. -/
structure Player where
  id : String
  name : String
  tiles : List Tile
  score : Nat
  isAI : Bool
  isReady : Bool
deriving DecidableEq, Repr

/-- The `gameMode` tag: `'waiting' | 'playing' | 'finished'`. -/
inductive GameMode where
  | waiting
  | playing
  | finished
deriving DecidableEq, Repr

/-- The per-room game state kept in `gameRooms` by `server.mjs`. -/
structure GameState where
  id : String
  players : List Player
  currentPlayerIndex : Nat
  board : List PlacedTile
  boneyard : List Tile
  boardEnds : List BoardEnd
  winner : Option String
  isGameOver : Bool
  turnsPassed : Nat
  gameMode : GameMode
  rematchRequests : List String
deriving DecidableEq, Repr

/-- A submitted move `{ playerId, tile, side, pass? }`; the optional
`pass` flag is modelled as a `Bool` (absent = `false`). -/
structure GameMove where
  playerId : String
  tile : Tile
  side : Side
  pass : Bool
deriving DecidableEq, Repr

/-- The rejection messages the handlers emit via `invalid-move` /
`error`.  `invalidState` stands for the JavaScript `TypeError` that would
be thrown when `players[currentPlayerIndex]` is `undefined`. -/
inductive MoveError where
  | notYourTurn
  | playerNotFound
  | tileNotInHand
  | invalidSide
  | tileDoesNotMatch
  | noTilesToDraw
  | invalidState
deriving DecidableEq, Repr

/-- Outcome of a handler invocation: either the move was applied or it was
rejected with one of the emitted messages. -/
inductive Resp where
  | accepted
  | rejected (e : MoveError)
deriving DecidableEq, Repr

/-- One tile of `generateDominoSet`: `{id: "i-j", left: i, right: j,
isDouble: i === j}`. -/
def mkTile (i j : Nat) : Tile :=
  { id := toString i ++ "-" ++ toString j
    left := i
    right := j
    isDouble := i == j }

/-- `generateDominoSet()`: the double loop `for i in 0..6, for j in i..6`
pushing `mkTile i j`. -/
def generateDominoSet : List Tile :=
  ((List.range 7).map (fun i => (List.range' i (7 - i)).map (mkTile i))).flatten

/-- The dealing loop of `dealTiles`: `numPlayers` times splice 7 tiles off
the front of the (already shuffled) tile list; the remainder is the
boneyard. -/
def dealLoop : Nat → List Tile → List (List Tile) × List Tile
  | 0, rest => ([], rest)
  | n + 1, rest =>
    let hand := rest.take 7
    let result := dealLoop n (rest.drop 7)
    (hand :: result.1, result.2)

/-- `dealTiles(numPlayers)` from `server.mjs` / `gameLogic.ts`.  The
source starts from `shuffleArray(generateDominoSet())`; `shuffleArray`
uses `Math.random`, so the shuffled list is taken as a parameter,
quantified over permutations of `generateDominoSet` in the theorems. -/
def dealTiles (numPlayers : Nat) (shuffled : List Tile) :
    List (List Tile) × List Tile :=
  dealLoop numPlayers shuffled

/-- `canPlaceTile(tile, endValue)` from `gameLogic.ts`. -/
def canPlaceTile (t : Tile) (endValue : Nat) : Bool :=
  t.left == endValue || t.right == endValue

/-- `canPlayerMove(player, boardEnds)` from `gameLogic.ts`. -/
def canPlayerMove (p : Player) (boardEnds : List BoardEnd) : Bool :=
  if boardEnds.isEmpty then true
  else p.tiles.any (fun t => boardEnds.any (fun e => canPlaceTile t e.value))

/-- `tiles.reduce((sum, tile) => sum + tile.left + tile.right, 0)`: the
pip sum of a hand (`calculateScore` in `gameLogic.ts`). -/
def pipSum (ts : List Tile) : Nat :=
  ts.foldl (fun sum t => sum + t.left + t.right) 0

/-- The `forEach` scan of the blocked-game winner computation, with the
accumulator `(lowestScore, winnerId)`; `none` stands for the initial
`lowestScore = Infinity, winnerId = ''`. -/
def bwAux : List Player → Option (Nat × String) → Option (Nat × String)
  | [], acc => acc
  | p :: rest, acc =>
    let score := pipSum p.tiles
    match acc with
    | none => bwAux rest (some (score, p.id))
    | some lw =>
      if score < lw.1 then bwAux rest (some (score, p.id))
      else bwAux rest (some lw)

/-- The blocked-game winner: first participant whose pip sum is strictly
below every earlier score (the `score < lowestScore` scan starting from
`Infinity`); `''` when there are no players. -/
def blockedWinner (ps : List Player) : String :=
  ((bwAux ps none).map Prod.snd).getD ""

/-- The pass branch of the `make-move` handler: advance the turn,
increment `turnsPassed`, and if the counter reaches the player count,
conclude the match with the lowest-pip-sum winner. -/
def passBranch (s : GameState) : GameState :=
  let s1 := { s with
    currentPlayerIndex := (s.currentPlayerIndex + 1) % s.players.length
    turnsPassed := s.turnsPassed + 1 }
  if s1.players.length ≤ s1.turnsPassed then
    { s1 with
      isGameOver := true
      winner := some (blockedWinner s1.players)
      gameMode := .finished }
  else s1

/-- `{...move.tile, left: move.tile.right, right: move.tile.left}`. -/
def flipTile (t : Tile) : Tile :=
  { t with left := t.right, right := t.left }

/-- The placement body of the `make-move` handler, after all validation
has passed: remove the tile from the hand (at `tileIdx`), orient and
position it, insert it on the requested side, recompute the board ends,
advance the turn, reset the pass counter, and detect the empty-hand win.
`pIdx` is the index of the first player whose id equals `move.playerId`
(the object mutated in place by the source). -/
def applyPlacement (s : GameState) (m : GameMove) (pIdx tileIdx : Nat)
    (player : Player) : GameState :=
  let newTiles := player.tiles.eraseIdx tileIdx
  let tilePos :=
    if s.board.isEmpty then (m.tile, (⟨400, 300⟩ : Position))
    else
      let matchValue :=
        ((s.boardEnds.find? (fun e => e.side == m.side)).map
          (fun e => e.value)).getD 0
      let needsFlip :=
        match m.side with
        | .right => m.tile.right == matchValue && !(m.tile.left == matchValue)
        | .left => m.tile.left == matchValue && !(m.tile.right == matchValue)
      let t := if needsFlip then flipTile m.tile else m.tile
      let pos : Position :=
        match m.side with
        | .right =>
          match s.board.getLast? with
          | some lastT => ⟨lastT.position.x + 65, lastT.position.y⟩
          | none => ⟨400, 300⟩
        | .left =>
          match s.board.head? with
          | some firstT => ⟨firstT.position.x - 65, firstT.position.y⟩
          | none => ⟨400, 300⟩
      (t, pos)
  let placedTile : PlacedTile :=
    { tile := tilePos.1, position := tilePos.2
      orientation := "horizontal", rotation := 0 }
  let newBoard :=
    match m.side with
    | .right => s.board ++ [placedTile]
    | .left => placedTile :: s.board
  let newBoardEnds :=
    if newBoard.length == 1 then
      [{ value := tilePos.1.left, position := placedTile.position,
         side := .left },
       { value := tilePos.1.right, position := placedTile.position,
         side := .right }]
    else
      match newBoard.head?, newBoard.getLast? with
      | some leftT, some rightT =>
        [{ value := leftT.tile.left, position := leftT.position,
           side := .left },
         { value := rightT.tile.right, position := rightT.position,
           side := .right }]
      | _, _ => []
  let s1 := { s with
    players := s.players.set pIdx { player with tiles := newTiles }
    board := newBoard
    boardEnds := newBoardEnds
    currentPlayerIndex := (s.currentPlayerIndex + 1) % s.players.length
    turnsPassed := 0 }
  if newTiles.isEmpty then
    { s1 with
      winner := some player.id
      isGameOver := true
      gameMode := .finished }
  else s1

/-- The non-pass branch of the `make-move` handler: look the tile up in
the hand (`findIndex === -1` → `Tile not found`), validate side and
matching value against `boardEnds` when the board has ends, then apply
the placement. -/
def placeBranch (s : GameState) (m : GameMove) (pIdx : Nat)
    (player : Player) : Resp × GameState :=
  let tileIdx := player.tiles.findIdx (fun t => t.id == m.tile.id)
  if tileIdx < player.tiles.length then
    if s.boardEnds.length ≠ 0 then
      match s.boardEnds.find? (fun e => e.side == m.side) with
      | none => (.rejected .invalidSide, s)
      | some targetEnd =>
        if m.tile.left == targetEnd.value || m.tile.right == targetEnd.value
        then (.accepted, applyPlacement s m pIdx tileIdx player)
        else (.rejected .tileDoesNotMatch, s)
    else (.accepted, applyPlacement s m pIdx tileIdx player)
  else (.rejected .tileNotInHand, s)

/-- The `make-move` handler of `server.mjs`: `socketId` is the submitting
socket, checked against the current player's id; the acting player object
is the first entry whose id equals `move.playerId`. -/
def makeMoveRun (socketId : String) (m : GameMove) (s : GameState) :
    Resp × GameState :=
  match s.players[s.currentPlayerIndex]? with
  | none => (.rejected .invalidState, s)
  | some currentPlayer =>
    if currentPlayer.id != socketId then (.rejected .notYourTurn, s)
    else
      let pIdx := s.players.findIdx (fun p => p.id == m.playerId)
      match s.players[pIdx]? with
      | none => (.rejected .playerNotFound, s)
      | some player =>
        if m.pass then (.accepted, passBranch s)
        else placeBranch s m pIdx player

/-- The `draw-tile` handler of `server.mjs`: after the turn and
non-empty-boneyard checks, `boneyard.pop()` and `currentPlayer.tiles.push`.
The turn index is left untouched. -/
def drawTileRun (socketId : String) (s : GameState) : Resp × GameState :=
  match s.players[s.currentPlayerIndex]? with
  | none => (.rejected .invalidState, s)
  | some currentPlayer =>
    if currentPlayer.id != socketId then (.rejected .notYourTurn, s)
    else if s.boneyard.length == 0 then (.rejected .noTilesToDraw, s)
    else
      match s.boneyard.getLast? with
      | none => (.rejected .noTilesToDraw, s)
      | some drawnTile =>
        (.accepted,
         { s with
            boneyard := s.boneyard.dropLast
            players := s.players.set s.currentPlayerIndex
              { currentPlayer with
                  tiles := currentPlayer.tiles ++ [drawnTile] } })

/-- The `draw-tile` handler of `src/app/api/socket/route.ts`: identical
to the `server.mjs` one up to the draw itself, then the turn advances
when `!canPlayerMove(currentPlayer, gameState.boardEnds)` for the hand
including the drawn tile. -/
def drawTileRoute (socketId : String) (s : GameState) : Resp × GameState :=
  match s.players[s.currentPlayerIndex]? with
  | none => (.rejected .invalidState, s)
  | some currentPlayer =>
    if currentPlayer.id != socketId then (.rejected .notYourTurn, s)
    else if s.boneyard.length == 0 then (.rejected .noTilesToDraw, s)
    else
      match s.boneyard.getLast? with
      | none => (.rejected .noTilesToDraw, s)
      | some drawnTile =>
        let newPlayer :=
          { currentPlayer with tiles := currentPlayer.tiles ++ [drawnTile] }
        let s1 := { s with
          boneyard := s.boneyard.dropLast
          players := s.players.set s.currentPlayerIndex newPlayer }
        if !canPlayerMove newPlayer s.boardEnds then
          (.accepted,
           { s1 with
              currentPlayerIndex :=
                (s1.currentPlayerIndex + 1) % s1.players.length })
        else (.accepted, s1)

/-- The pip value of a placed tile facing the rest of the chain: its
left value when it was inserted on the right, its right value when it was
inserted on the left. -/
def chainAdjacentValue (sd : Side) (t : Tile) : Nat :=
  match sd with
  | .right => t.left
  | .left => t.right

/-- The pip value of a placed tile facing outward (the new open end). -/
def outwardValue (sd : Side) (t : Tile) : Nat :=
  match sd with
  | .right => t.right
  | .left => t.left

/-- The value of the tile other than the one equal to `v` (for a double
both coincide). -/
def otherValue (t : Tile) (v : Nat) : Nat :=
  if t.left = v then t.right else t.left

/-- The tile just inserted on side `sd`: the last board entry for a right
insertion, the first one for a left insertion. -/
def insertedTile (s : GameState) (sd : Side) : Option PlacedTile :=
  match sd with
  | .right => s.board.getLast?
  | .left => s.board.head?

/-- The value of the board end tagged with side `sd`. -/
def sideEndValue (s : GameState) (sd : Side) : Option Nat :=
  (s.boardEnds.find? (fun e => e.side == sd)).map BoardEnd.value

/-- Adjacent placed tiles have equal touching pip values: each tile's
right value equals the next tile's left value. -/
def chainOk (board : List PlacedTile) : Prop :=
  board.Chain' (fun a b => a.tile.right = b.tile.left)

/-- The board ends are exactly the outward values of the leftmost and
rightmost placed tiles (and empty for an empty board). -/
def endsOk (s : GameState) : Prop :=
  s.boardEnds =
    match s.board.head?, s.board.getLast? with
    | some lt, some rt =>
      [{ value := lt.tile.left, position := lt.position, side := .left },
       { value := rt.tile.right, position := rt.position, side := .right }]
    | _, _ => []

/-- States reachable from an empty board by accepted (non-pass)
placements through the `make-move` handler. -/
inductive Reachable : GameState → Prop where
  | start (s : GameState) (hb : s.board = []) (he : s.boardEnds = []) :
      Reachable s
  | place (s : GameState) (sock : String) (m : GameMove) (s' : GameState)
      (hs : Reachable s) (hp : m.pass = false)
      (h : makeMoveRun sock m s = (.accepted, s')) : Reachable s'

/-- The multiset of tile identities in one participant's hand. -/
def handIds (p : Player) : Multiset String :=
  ((p.tiles.map Tile.id : List String) : Multiset String)

/-- The multiset of tile identities present anywhere in the state: in
every hand, on the board, and in the boneyard. -/
def tileIds (s : GameState) : Multiset String :=
  (s.players.map handIds).sum
    + ((s.board.map (fun pt => pt.tile.id) : List String) : Multiset String)
    + ((s.boneyard.map Tile.id : List String) : Multiset String)

/-! Concrete fixture states used by witnesses and counterexamples. -/

/-- The tile 2-3. -/
def tile23 : Tile := ⟨"2-3", 2, 3, false⟩

/-- The tile 3-4. -/
def tile34 : Tile := ⟨"3-4", 3, 4, false⟩

/-- The tile 2-5, declared with `left = 5` so that a right-side placement
against a 5 end exercises the flip. -/
def tile25 : Tile := ⟨"2-5", 5, 2, false⟩

/-- The double 5-5. -/
def tile55 : Tile := ⟨"5-5", 5, 5, true⟩

/-- The double 0-0. -/
def tile00 : Tile := ⟨"0-0", 0, 0, true⟩

/-- The tile 0-1. -/
def tile01 : Tile := ⟨"0-1", 0, 1, false⟩

/-- Player A holding 2-3. -/
def playerA : Player := ⟨"A", "Alice", [tile23], 0, false, true⟩

/-- Player B holding 3-4. -/
def playerB : Player := ⟨"B", "Bob", [tile34], 0, false, true⟩

/-- Player C holding 2-5 and 2-3. -/
def playerC : Player := ⟨"C", "Cora", [tile25, tile23], 0, false, true⟩

/-- Player D holding 0-1 only. -/
def playerD : Player := ⟨"D", "Dan", [tile01], 0, false, true⟩

/-- A two-player state with an empty board, A to move. -/
def stEmpty : GameState :=
  ⟨"R", [playerA, playerB], 0, [], [], [], none, false, 0, .playing, []⟩

/-- The double 5-5 placed at the origin position. -/
def placed55 : PlacedTile := ⟨tile55, ⟨400, 300⟩, "horizontal", 0⟩

/-- A state whose board is the single tile 5-5 with both ends 5, C to
move, empty boneyard. -/
def stFive : GameState :=
  ⟨"R", [playerC, playerB], 0, [placed55],
   [], [⟨5, ⟨400, 300⟩, .left⟩, ⟨5, ⟨400, 300⟩, .right⟩],
   none, false, 0, .playing, []⟩

/-- Like `stFive` but with a non-empty boneyard while C still holds the
matching tile 2-5: drawing here is the situation the spec forbids. -/
def stCanMove : GameState :=
  ⟨"R", [playerC, playerB], 0, [placed55],
   [tile00], [⟨5, ⟨400, 300⟩, .left⟩, ⟨5, ⟨400, 300⟩, .right⟩],
   none, false, 0, .playing, []⟩

/-- Board 5-5 with ends 5/5, D to move holding only 0-1, boneyard 0-0:
after drawing, D still has no legal move. -/
def stNoMove : GameState :=
  ⟨"R", [playerD, playerB], 0, [placed55],
   [tile00], [⟨5, ⟨400, 300⟩, .left⟩, ⟨5, ⟨400, 300⟩, .right⟩],
   none, false, 0, .playing, []⟩

/-- A concluded two-player state: A has emptied their hand and won, the
turn index points at B. -/
def stDone : GameState :=
  ⟨"R", [⟨"A", "Alice", [], 0, false, true⟩, playerB], 1,
   [⟨tile23, ⟨400, 300⟩, "horizontal", 0⟩],
   [], [⟨2, ⟨400, 300⟩, .left⟩, ⟨3, ⟨400, 300⟩, .right⟩],
   some "A", true, 0, .finished, []⟩

/-- A pass move submitted by B. -/
def passB : GameMove := ⟨"B", tile34, .left, true⟩

/-- The winner scan once the accumulator holds a finite lowest score:
a pure restatement of the tail of `bwAux`, used to reason about it. -/
def bwSpec : List Player → Nat × String → Nat × String
  | [], acc => acc
  | p :: rest, acc =>
    if pipSum p.tiles < acc.1 then bwSpec rest (pipSum p.tiles, p.id)
    else bwSpec rest acc

/-! ## Generic handler lemmas -/

theorem placeBranch_rejected_eq {s : GameState} {m : GameMove} {pIdx : Nat}
    {player : Player} {r : MoveError} {s₁ : GameState}
    (h : placeBranch s m pIdx player = (.rejected r, s₁)) : s₁ = s := by
  simp only [placeBranch] at h
  repeat' split at h
  all_goals injection h with h1 h2
  all_goals first
    | exact h2.symm
    | exact Resp.noConfusion h1

theorem makeMoveRun_rejected_eq {sock : String} {m : GameMove}
    {s : GameState} {r : MoveError} {s₁ : GameState}
    (h : makeMoveRun sock m s = (.rejected r, s₁)) : s₁ = s := by
  simp only [makeMoveRun] at h
  repeat' split at h
  all_goals first
    | exact placeBranch_rejected_eq h
    | (injection h with h1 h2
       first
         | exact h2.symm
         | exact Resp.noConfusion h1)

theorem drawTileRun_rejected_eq {sock : String} {s : GameState}
    {r : MoveError} {s₁ : GameState}
    (h : drawTileRun sock s = (.rejected r, s₁)) : s₁ = s := by
  simp only [drawTileRun] at h
  repeat' split at h
  all_goals injection h with h1 h2
  all_goals first
    | exact h2.symm
    | exact Resp.noConfusion h1

/-- C8: whenever a submitted move or draw is rejected, the match state
after the rejection equals the match state before it, field for field. -/
theorem rejected_submission_leaves_state_unchanged
    (sock : String) (m : GameMove) (s s₁ s₂ : GameState)
    (r₁ r₂ : MoveError) :
    (makeMoveRun sock m s = (.rejected r₁, s₁) → s₁ = s) ∧
    (drawTileRun sock s = (.rejected r₂, s₂) → s₂ = s) :=
  ⟨fun h => makeMoveRun_rejected_eq h, fun h => drawTileRun_rejected_eq h⟩

/-- Witness for C8: a wrong-turn move and a wrong-turn draw, both hitting
the rejection path on `stEmpty`. -/
theorem rejected_submission_leaves_state_unchanged_witness :
    stEmpty = stEmpty ∧ stEmpty = stEmpty :=
  ⟨(rejected_submission_leaves_state_unchanged "B" passB stEmpty stEmpty
      stEmpty .notYourTurn .notYourTurn).1 (by decide),
   (rejected_submission_leaves_state_unchanged "B" passB stEmpty stEmpty
      stEmpty .notYourTurn .notYourTurn).2 (by decide)⟩

/-! ## Dealing (C9) -/

theorem dealLoop_fst_length : ∀ (n : Nat) (l : List Tile),
    (dealLoop n l).1.length = n
  | 0, _ => rfl
  | n + 1, l => by
    simpa [dealLoop] using dealLoop_fst_length n (l.drop 7)

theorem dealLoop_flatten : ∀ (n : Nat) (l : List Tile),
    (dealLoop n l).1.flatten ++ (dealLoop n l).2 = l
  | 0, _ => rfl
  | n + 1, l => by
    simp only [dealLoop, List.flatten_cons, List.append_assoc]
    rw [dealLoop_flatten n (l.drop 7)]
    exact List.take_append_drop 7 l

theorem dealLoop_hand_length : ∀ (n : Nat) (l : List Tile),
    7 * n ≤ l.length → ∀ hand ∈ (dealLoop n l).1, hand.length = 7
  | 0, _, _, _, hm => by simp [dealLoop] at hm
  | n + 1, l, hlen, hand, hm => by
    simp only [dealLoop, List.mem_cons] at hm
    rcases hm with hm | hm
    · subst hm
      have : 7 ≤ l.length := by
        calc 7 ≤ 7 * (n + 1) := by omega
        _ ≤ l.length := hlen
      simp [List.length_take, Nat.min_eq_left this]
    · refine dealLoop_hand_length n (l.drop 7) ?_ hand hm
      simp only [List.length_drop]
      omega

/-- The tile set has no duplicate tiles. -/
theorem generateDominoSet_nodup : generateDominoSet.Nodup := by decide

/-- The tile set has 28 tiles. -/
theorem generateDominoSet_length : generateDominoSet.length = 28 := by decide

/-- C9: for every participantCount in [1,4], dealing from any shuffle of
the double-six set produces that many hands of exactly 7 tiles, pairwise
disjoint and drawn from the 28-tile set, and hand sizes plus boneyard
size sum to 28. -/
theorem dealTiles_complete (n : Nat) (h1 : 1 ≤ n) (h4 : n ≤ 4)
    (l : List Tile) (hp : l.Perm generateDominoSet) :
    (dealTiles n l).1.length = n ∧
    (∀ hand ∈ (dealTiles n l).1, hand.length = 7) ∧
    (dealTiles n l).1.Pairwise List.Disjoint ∧
    (∀ hand ∈ (dealTiles n l).1, ∀ t ∈ hand, t ∈ generateDominoSet) ∧
    ((dealTiles n l).1.map List.length).sum + (dealTiles n l).2.length = 28
    := by
  have hlen : l.length = 28 := by
    rw [hp.length_eq, generateDominoSet_length]
  have hnodup : l.Nodup := hp.nodup_iff.mpr generateDominoSet_nodup
  have hjoin := dealLoop_flatten n l
  have hpre : (dealLoop n l).1.flatten.Sublist l := by
    conv_rhs => rw [← hjoin]
    exact List.sublist_append_left _ _
  have hflat : (dealLoop n l).1.flatten.Nodup := hnodup.sublist hpre
  refine ⟨dealLoop_fst_length n l, ?_, ?_, ?_, ?_⟩
  · exact dealLoop_hand_length n l (by omega)
  · exact (List.nodup_flatten.mp hflat).2
  · intro hand hm t ht
    have htl : t ∈ l := hpre.subset (List.mem_flatten.mpr ⟨hand, hm, ht⟩)
    exact hp.subset htl
  · have := congrArg List.length hjoin
    simp only [List.length_append, List.length_flatten] at this
    simpa [dealTiles, hlen] using this

/-- Witness for C9 at participantCount 2 and the identity shuffle. -/
theorem dealTiles_complete_witness :
    (dealTiles 2 generateDominoSet).1.length = 2 ∧
    (∀ hand ∈ (dealTiles 2 generateDominoSet).1, hand.length = 7) ∧
    (dealTiles 2 generateDominoSet).1.Pairwise List.Disjoint ∧
    (∀ hand ∈ (dealTiles 2 generateDominoSet).1, ∀ t ∈ hand,
      t ∈ generateDominoSet) ∧
    ((dealTiles 2 generateDominoSet).1.map List.length).sum
      + (dealTiles 2 generateDominoSet).2.length = 28 :=
  dealTiles_complete 2 (by decide) (by decide) generateDominoSet
    (List.Perm.refl _)

/-! ## Pass semantics and the blocked winner (C4) -/

theorem makeMoveRun_accept_players_ne {sock : String} {m : GameMove}
    {s s' : GameState} (h : makeMoveRun sock m s = (.accepted, s')) :
    s.players ≠ [] := by
  intro hnil
  simp [makeMoveRun, hnil] at h

theorem makeMoveRun_accept_pass {sock : String} {m : GameMove}
    {s s' : GameState} (h : makeMoveRun sock m s = (.accepted, s'))
    (hp : m.pass = true) : s' = passBranch s ∧ s.players ≠ [] := by
  refine ⟨?_, makeMoveRun_accept_players_ne h⟩
  simp only [makeMoveRun] at h
  repeat' split at h
  all_goals first
    | (injection h with h1 h2
       first
         | exact h2.symm
         | exact Resp.noConfusion h1)
    | (rename_i hpf; exact absurd hp hpf)

theorem bwAux_some : ∀ (ps : List Player) (a : Nat × String),
    bwAux ps (some a) = some (bwSpec ps a)
  | [], _ => rfl
  | p :: rest, a => by
    simp only [bwAux, bwSpec]
    split
    · exact bwAux_some rest _
    · exact bwAux_some rest a

theorem bwSpec_spec : ∀ (ps : List Player) (lo : Nat) (w : String),
    ((∀ q ∈ ps, lo ≤ pipSum q.tiles) ∧ bwSpec ps (lo, w) = (lo, w)) ∨
    (∃ i, ∃ h : i < ps.length,
      bwSpec ps (lo, w) =
        (pipSum (ps.get ⟨i, h⟩).tiles, (ps.get ⟨i, h⟩).id) ∧
      pipSum (ps.get ⟨i, h⟩).tiles < lo ∧
      (∀ q ∈ ps, pipSum (ps.get ⟨i, h⟩).tiles ≤ pipSum q.tiles) ∧
      (∀ q ∈ ps.take i, pipSum (ps.get ⟨i, h⟩).tiles < pipSum q.tiles))
  | [], lo, w => Or.inl ⟨by simp, rfl⟩
  | p :: rest, lo, w => by
    by_cases hlt : pipSum p.tiles < lo
    · have hstep : bwSpec (p :: rest) (lo, w) =
          bwSpec rest (pipSum p.tiles, p.id) := by
        simp [bwSpec, hlt]
      rcases bwSpec_spec rest (pipSum p.tiles) p.id with
        ⟨hall, heq⟩ | ⟨i, hi, heq, hlt2, hall, hbef⟩
      · refine Or.inr ⟨0, by simp, ?_, ?_, ?_, ?_⟩
        · rw [hstep, heq]; rfl
        · simpa using hlt
        · intro q hq
          rcases List.mem_cons.mp hq with hq | hq
          · subst hq; simp
          · simpa using hall q hq
        · simp
      · refine Or.inr ⟨i + 1, by simpa using Nat.succ_lt_succ hi, ?_, ?_, ?_, ?_⟩
        · exact hstep.trans heq
        · exact lt_trans hlt2 hlt
        · intro q hq
          rcases List.mem_cons.mp hq with hq | hq
          · subst hq
            exact le_of_lt hlt2
          · exact hall q hq
        · intro q hq
          simp only [List.take_succ_cons, List.mem_cons] at hq
          rcases hq with hq | hq
          · subst hq; exact hlt2
          · exact hbef q hq
    · have hstep : bwSpec (p :: rest) (lo, w) = bwSpec rest (lo, w) := by
        simp [bwSpec, hlt]
      rcases bwSpec_spec rest lo w with
        ⟨hall, heq⟩ | ⟨i, hi, heq, hlt2, hall, hbef⟩
      · refine Or.inl ⟨?_, by rw [hstep, heq]⟩
        intro q hq
        rcases List.mem_cons.mp hq with hq | hq
        · subst hq; omega
        · exact hall q hq
      · refine Or.inr ⟨i + 1, by simpa using Nat.succ_lt_succ hi, ?_, ?_, ?_, ?_⟩
        · exact hstep.trans heq
        · exact hlt2
        · intro q hq
          rcases List.mem_cons.mp hq with hq | hq
          · subst hq
            exact le_of_lt (lt_of_lt_of_le hlt2 (not_lt.mp hlt))
          · exact hall q hq
        · intro q hq
          simp only [List.take_succ_cons, List.mem_cons] at hq
          rcases hq with hq | hq
          · subst hq
            exact lt_of_lt_of_le hlt2 (not_lt.mp hlt)
          · exact hbef q hq

/-- `blockedWinner` picks the id of the first participant whose hand pip
sum attains the minimum over all participants. -/
theorem blockedWinner_first_min (ps : List Player) (hne : ps ≠ []) :
    ∃ i, ∃ h : i < ps.length,
      blockedWinner ps = (ps.get ⟨i, h⟩).id ∧
      (∀ q ∈ ps, pipSum (ps.get ⟨i, h⟩).tiles ≤ pipSum q.tiles) ∧
      (∀ q ∈ ps.take i, pipSum (ps.get ⟨i, h⟩).tiles < pipSum q.tiles) := by
  match ps, hne with
  | p :: rest, _ =>
    have hbw : blockedWinner (p :: rest) =
        (bwSpec rest (pipSum p.tiles, p.id)).2 := by
      simp [blockedWinner, bwAux, bwAux_some]
    rcases bwSpec_spec rest (pipSum p.tiles) p.id with
      ⟨hall, heq⟩ | ⟨i, hi, heq, hlt2, hall, hbef⟩
    · refine ⟨0, by simp, ?_, ?_, ?_⟩
      · exact hbw.trans (congrArg Prod.snd heq)
      · intro q hq
        rcases List.mem_cons.mp hq with hq | hq
        · subst hq; simp
        · simpa using hall q hq
      · simp
    · refine ⟨i + 1, by simpa using Nat.succ_lt_succ hi, ?_, ?_, ?_⟩
      · exact hbw.trans (congrArg Prod.snd heq)
      · intro q hq
        rcases List.mem_cons.mp hq with hq | hq
        · subst hq; exact le_of_lt hlt2
        · exact hall q hq
      · intro q hq
        simp only [List.take_succ_cons, List.mem_cons] at hq
        rcases hq with hq | hq
        · subst hq; exact hlt2
        · exact hbef q hq

/-- C4: a pass advances the turn and increments the consecutive-pass
counter; an accepted placement resets the counter to 0; when the counter
reaches the participant count the match concludes and the winner is the
first participant in list order attaining the strictly lowest remaining
pip sum. -/
theorem pass_counter_and_blocked_winner (sock : String) (m : GameMove)
    (s s' : GameState) (hacc : makeMoveRun sock m s = (.accepted, s')) :
    (m.pass = true →
      s'.currentPlayerIndex = (s.currentPlayerIndex + 1) % s.players.length ∧
      s'.turnsPassed = s.turnsPassed + 1 ∧
      (s.turnsPassed + 1 < s.players.length →
        s'.isGameOver = s.isGameOver ∧ s'.winner = s.winner ∧
        s'.gameMode = s.gameMode) ∧
      (s.players.length ≤ s.turnsPassed + 1 →
        s'.isGameOver = true ∧ s'.gameMode = .finished ∧
        ∃ i, ∃ h : i < s.players.length,
          s'.winner = some (s.players.get ⟨i, h⟩).id ∧
          (∀ q ∈ s.players,
            pipSum (s.players.get ⟨i, h⟩).tiles ≤ pipSum q.tiles) ∧
          (∀ q ∈ s.players.take i,
            pipSum (s.players.get ⟨i, h⟩).tiles < pipSum q.tiles))) ∧
    (m.pass = false → s'.turnsPassed = 0) := by
  constructor
  · intro hp
    obtain ⟨hs', hne⟩ := makeMoveRun_accept_pass hacc hp
    subst hs'
    simp only [passBranch]
    split
    · rename_i hblock
      refine ⟨rfl, rfl, ?_, ?_⟩
      · intro hlt
        exact absurd hblock (by simpa using hlt)
      · intro _
        refine ⟨rfl, rfl, ?_⟩
        obtain ⟨i, hilt, hw, hall, hbef⟩ := blockedWinner_first_min s.players hne
        exact ⟨i, hilt, congrArg some hw, hall, hbef⟩
    · rename_i hblock
      refine ⟨rfl, rfl, fun _ => ⟨rfl, rfl, rfl⟩, fun hge => absurd hge ?_⟩
      simpa using hblock
  · intro hp
    simp only [makeMoveRun, placeBranch] at hacc
    repeat' split at hacc
    all_goals first
      | (injection hacc with h1 h2
         first
           | exact Resp.noConfusion h1
           | (rw [← h2]
              simp only [applyPlacement]
              split <;> rfl))
      | (rename_i hpt
         simp [hp] at hpt)

/-- Witness for C4: C passes in `stFive`; the counter increments and the
turn advances. -/
theorem pass_counter_and_blocked_winner_witness :
    (makeMoveRun "C" ⟨"C", tile25, .right, true⟩ stFive).2.turnsPassed
      = stFive.turnsPassed + 1 ∧
    (makeMoveRun "C" ⟨"C", tile25, .right, true⟩ stFive).2.currentPlayerIndex
      = (stFive.currentPlayerIndex + 1) % stFive.players.length := by
  have h := pass_counter_and_blocked_winner "C" ⟨"C", tile25, .right, true⟩
    stFive (makeMoveRun "C" ⟨"C", tile25, .right, true⟩ stFive).2 (by decide)
  exact ⟨(h.1 rfl).2.1, (h.1 rfl).1⟩

/-! ## Placement acceptance decomposition -/

theorem makeMoveRun_accept_place {sock : String} {m : GameMove}
    {s s' : GameState} (h : makeMoveRun sock m s = (.accepted, s'))
    (hp : m.pass = false) :
    ∃ player,
      s.players[s.players.findIdx (fun p => p.id == m.playerId)]?
        = some player ∧
      player.tiles.findIdx (fun t => t.id == m.tile.id)
        < player.tiles.length ∧
      (s.boardEnds.length = 0 ∨
        ∃ e, s.boardEnds.find? (fun q => q.side == m.side) = some e ∧
          (m.tile.left = e.value ∨ m.tile.right = e.value)) ∧
      s' = applyPlacement s m
        (s.players.findIdx (fun p => p.id == m.playerId))
        (player.tiles.findIdx (fun t => t.id == m.tile.id)) player := by
  rcases hcp : s.players[s.currentPlayerIndex]? with _ | cp
  · simp [makeMoveRun, hcp] at h
  · by_cases hsock : (cp.id != sock) = true
    · simp [makeMoveRun, hcp, hsock] at h
    · rcases hpl : s.players[s.players.findIdx (fun p => p.id == m.playerId)]?
        with _ | player
      · simp [makeMoveRun, hcp, hsock, hpl] at h
      · by_cases htile : player.tiles.findIdx (fun t => t.id == m.tile.id)
            < player.tiles.length
        · by_cases hends : s.boardEnds.length ≠ 0
          · rcases hfind : s.boardEnds.find? (fun q => q.side == m.side)
              with _ | e
            · simp [makeMoveRun, placeBranch, hcp, hsock, hpl, hp, htile,
                hends, hfind] at h
            · by_cases hmatch :
                  (m.tile.left == e.value || m.tile.right == e.value) = true
              · have h2 : applyPlacement s m
                    (s.players.findIdx (fun p => p.id == m.playerId))
                    (player.tiles.findIdx (fun t => t.id == m.tile.id))
                    player = s' := by
                  simpa [makeMoveRun, placeBranch, hcp, hsock, hpl, hp,
                    htile, hends, hfind, hmatch] using h
                exact ⟨player, hpl, htile,
                  Or.inr ⟨e, hfind, by simpa using hmatch⟩, h2.symm⟩
              · simp [makeMoveRun, placeBranch, hcp, hsock, hpl, hp, htile,
                  hends, hfind, hmatch] at h
          · have h2 : applyPlacement s m
                (s.players.findIdx (fun p => p.id == m.playerId))
                (player.tiles.findIdx (fun t => t.id == m.tile.id))
                player = s' := by
              simpa [makeMoveRun, placeBranch, hcp, hsock, hpl, hp, htile,
                hends] using h
            exact ⟨player, hpl, htile, Or.inl (not_not.mp hends), h2.symm⟩
        · simp [makeMoveRun, placeBranch, hcp, hsock, hpl, hp, htile] at h

/-! ## Draw handler decomposition (C5, C6) -/

theorem drawTileRun_accept {sock : String} {s s' : GameState}
    (h : drawTileRun sock s = (.accepted, s')) :
    ∃ cp t, s.players[s.currentPlayerIndex]? = some cp ∧
      s.boneyard.getLast? = some t ∧ cp.id = sock ∧ s.boneyard ≠ [] ∧
      s' = { s with
        boneyard := s.boneyard.dropLast
        players := s.players.set s.currentPlayerIndex
          { cp with tiles := cp.tiles ++ [t] } } := by
  rcases hcp : s.players[s.currentPlayerIndex]? with _ | cp
  · simp [drawTileRun, hcp] at h
  · by_cases hsock : (cp.id != sock) = true
    · simp [drawTileRun, hcp, hsock] at h
    · by_cases hbe : s.boneyard.length = 0
      · simp [drawTileRun, hcp, hsock, hbe] at h
      · rcases hlast : s.boneyard.getLast? with _ | t
        · rw [List.getLast?_eq_none_iff] at hlast
          simp [hlast] at hbe
        · refine ⟨cp, t, rfl, rfl, by simpa using hsock,
            by simpa [← List.length_eq_zero] using hbe, ?_⟩
          have h' := h
          simp [drawTileRun, hcp, hsock, hbe, hlast] at h'
          exact h'.symm

theorem drawTileRoute_accept {sock : String} {s s' : GameState}
    (h : drawTileRoute sock s = (.accepted, s')) :
    ∃ cp t, s.players[s.currentPlayerIndex]? = some cp ∧
      s.boneyard.getLast? = some t ∧ cp.id = sock ∧ s.boneyard ≠ [] ∧
      s' = (if canPlayerMove { cp with tiles := cp.tiles ++ [t] }
              s.boardEnds
            then { s with
              boneyard := s.boneyard.dropLast
              players := s.players.set s.currentPlayerIndex
                { cp with tiles := cp.tiles ++ [t] } }
            else { s with
              boneyard := s.boneyard.dropLast
              players := s.players.set s.currentPlayerIndex
                { cp with tiles := cp.tiles ++ [t] }
              currentPlayerIndex := (s.currentPlayerIndex + 1)
                % (s.players.set s.currentPlayerIndex
                    { cp with tiles := cp.tiles ++ [t] }).length }) := by
  rcases hcp : s.players[s.currentPlayerIndex]? with _ | cp
  · simp [drawTileRoute, hcp] at h
  · by_cases hsock : (cp.id != sock) = true
    · simp [drawTileRoute, hcp, hsock] at h
    · by_cases hbe : s.boneyard.length = 0
      · simp [drawTileRoute, hcp, hsock, hbe] at h
      · rcases hlast : s.boneyard.getLast? with _ | t
        · rw [List.getLast?_eq_none_iff] at hlast
          simp [hlast] at hbe
        · have hbne : s.boneyard ≠ [] := by
            simpa [← List.length_eq_zero] using hbe
          refine ⟨cp, t, rfl, rfl, by simpa using hsock, hbne, ?_⟩
          have h' := h
          simp only [drawTileRoute, hcp, hsock, hbe, hlast] at h'
          by_cases hmove :
              canPlayerMove { cp with tiles := cp.tiles ++ [t] } s.boardEnds
            = true
          · simp [hmove, hbne] at h'
            simp [hmove, h'.symm]
          · simp [hmove, hbne] at h'
            simp [hmove, h'.symm]

/-- C5 (amended): the `draw-tile` handlers accept a draw exactly when it
is the requesting participant's turn and the boneyard is non-empty; an
empty boneyard is rejected with NoTilesToDraw; no check that the
participant lacks a legal placement is performed. -/
theorem draw_validation (sock : String) (s : GameState) (cp : Player)
    (hcp : s.players[s.currentPlayerIndex]? = some cp) :
    (cp.id ≠ sock →
      drawTileRun sock s = (.rejected .notYourTurn, s) ∧
      drawTileRoute sock s = (.rejected .notYourTurn, s)) ∧
    (cp.id = sock → s.boneyard = [] →
      drawTileRun sock s = (.rejected .noTilesToDraw, s) ∧
      drawTileRoute sock s = (.rejected .noTilesToDraw, s)) ∧
    (cp.id = sock → s.boneyard ≠ [] →
      (drawTileRun sock s).1 = .accepted ∧
      (drawTileRoute sock s).1 = .accepted) := by
  refine ⟨?_, ?_, ?_⟩
  · intro hne
    have hsock : (cp.id != sock) = true := by simpa using hne
    constructor <;> simp [drawTileRun, drawTileRoute, hcp, hsock]
  · intro heq hbe
    have hsock : ¬(cp.id != sock) = true := by simpa using heq
    constructor <;> simp [drawTileRun, drawTileRoute, hcp, hsock, hbe]
  · intro heq hbe
    have hsock : ¬(cp.id != sock) = true := by simpa using heq
    have hlen : ¬s.boneyard.length = 0 := by
      simpa [← List.length_eq_zero] using hbe
    rcases hlast : s.boneyard.getLast? with _ | t
    · rw [List.getLast?_eq_none_iff] at hlast
      exact absurd hlast hbe
    · constructor <;>
        simp [drawTileRun, drawTileRoute, hcp, hsock, hlen, hlast] <;>
        split <;> simp

/-- Witness for C5 (amended): in `stCanMove` it is C's turn and the
boneyard is non-empty, so both handlers accept the draw. -/
theorem draw_validation_witness :
    (drawTileRun "C" stCanMove).1 = .accepted ∧
    (drawTileRoute "C" stCanMove).1 = .accepted :=
  (draw_validation "C" stCanMove playerC (by decide)).2.2 (by decide)
    (by decide)

/-- Counterexample for C5 as stated: in `stCanMove` the drawing
participant C still holds the matching tile 2-5 (`canPlayerMove` is
true), yet both handlers accept the draw. -/
theorem draw_with_move_available :
    canPlayerMove playerC stCanMove.boardEnds = true ∧
    stCanMove.boneyard ≠ [] ∧
    (drawTileRun "C" stCanMove).1 = .accepted ∧
    (drawTileRoute "C" stCanMove).1 = .accepted := by decide

/-- C6 (amended): an accepted draw moves exactly one tile, the last of
the boneyard, into the drawing participant's hand.  The route.ts handler
then advances the turn exactly when the participant still has no legal
move; the server.mjs handler never advances the turn on a draw. -/
theorem draw_moves_one_tile (sock : String) (s s' s₂ : GameState) :
    (drawTileRun sock s = (.accepted, s') →
      ∃ cp t, s.players[s.currentPlayerIndex]? = some cp ∧
        s.boneyard = s'.boneyard ++ [t] ∧
        s'.players = s.players.set s.currentPlayerIndex
          { cp with tiles := cp.tiles ++ [t] } ∧
        s'.board = s.board ∧
        s'.currentPlayerIndex = s.currentPlayerIndex) ∧
    (drawTileRoute sock s = (.accepted, s₂) →
      ∃ cp t, s.players[s.currentPlayerIndex]? = some cp ∧
        s.boneyard = s₂.boneyard ++ [t] ∧
        s₂.players = s.players.set s.currentPlayerIndex
          { cp with tiles := cp.tiles ++ [t] } ∧
        s₂.board = s.board ∧
        (canPlayerMove { cp with tiles := cp.tiles ++ [t] } s.boardEnds
            = false →
          s₂.currentPlayerIndex
            = (s.currentPlayerIndex + 1) % s.players.length) ∧
        (canPlayerMove { cp with tiles := cp.tiles ++ [t] } s.boardEnds
            = true →
          s₂.currentPlayerIndex = s.currentPlayerIndex)) := by
  constructor
  · intro h
    obtain ⟨cp, t, hcp, hlast, hsock, hbne, hs'⟩ := drawTileRun_accept h
    refine ⟨cp, t, hcp, ?_, ?_, ?_, ?_⟩
    · rw [hs']
      exact (List.dropLast_append_getLast? t hlast).symm
    · rw [hs']
    · rw [hs']
    · rw [hs']
  · intro h
    obtain ⟨cp, t, hcp, hlast, hsock, hbne, hs₂⟩ := drawTileRoute_accept h
    by_cases hmove :
        canPlayerMove { cp with tiles := cp.tiles ++ [t] } s.boardEnds = true
    · rw [if_pos hmove] at hs₂
      refine ⟨cp, t, hcp, ?_, ?_, ?_, ?_, ?_⟩
      · rw [hs₂]
        exact (List.dropLast_append_getLast? t hlast).symm
      · rw [hs₂]
      · rw [hs₂]
      · intro hf
        rw [hmove] at hf
        exact absurd hf (by simp)
      · intro _
        rw [hs₂]
    · rw [if_neg hmove] at hs₂
      refine ⟨cp, t, hcp, ?_, ?_, ?_, ?_, ?_⟩
      · rw [hs₂]
        exact (List.dropLast_append_getLast? t hlast).symm
      · rw [hs₂]
      · rw [hs₂]
      · intro _
        rw [hs₂]
        simp
      · intro ht
        exact absurd ht hmove

/-- Witness for C6 (amended): D draws in `stNoMove` through the
server.mjs handler. -/
theorem draw_moves_one_tile_witness :
    ∃ cp t, stNoMove.players[stNoMove.currentPlayerIndex]? = some cp ∧
      stNoMove.boneyard = (drawTileRun "D" stNoMove).2.boneyard ++ [t] ∧
      (drawTileRun "D" stNoMove).2.players
        = stNoMove.players.set stNoMove.currentPlayerIndex
          { cp with tiles := cp.tiles ++ [t] } ∧
      (drawTileRun "D" stNoMove).2.board = stNoMove.board ∧
      (drawTileRun "D" stNoMove).2.currentPlayerIndex
        = stNoMove.currentPlayerIndex :=
  (draw_moves_one_tile "D" stNoMove (drawTileRun "D" stNoMove).2
    (drawTileRoute "D" stNoMove).2).1 (by decide)

/-- Counterexample for C6 as stated: in `stNoMove` the drawn tile 0-0
still gives D no legal move against the 5/5 ends, yet the server.mjs
handler leaves the turn with D instead of advancing it. -/
theorem draw_no_move_does_not_advance :
    (drawTileRun "D" stNoMove).1 = .accepted ∧
    canPlayerMove ⟨"D", "Dan", [tile01, tile00], 0, false, true⟩
      stNoMove.boardEnds = false ∧
    (drawTileRun "D" stNoMove).2.currentPlayerIndex
      = stNoMove.currentPlayerIndex ∧
    (stNoMove.currentPlayerIndex + 1) % stNoMove.players.length
      ≠ stNoMove.currentPlayerIndex := by decide

/-! ## Tile conservation (C10) -/

theorem getElem?_some_lt {α : Type} {l : List α} {i : Nat} {a : α}
    (h : l[i]? = some a) : i < l.length := by
  by_contra hge
  rw [List.getElem?_eq_none (Nat.le_of_not_lt hge)] at h
  exact Option.noConfusion h

theorem getElem?_some_get {α : Type} {l : List α} {i : Nat} {a : α}
    (h : l[i]? = some a) (hlt : i < l.length) : l.get ⟨i, hlt⟩ = a := by
  rw [List.getElem?_eq_getElem hlt] at h
  simpa using h

theorem perm_get_cons_eraseIdx {α : Type} (l : List α) (i : Nat)
    (h : i < l.length) : List.Perm ((l.get ⟨i, h⟩) :: l.eraseIdx i) l := by
  rw [List.eraseIdx_eq_take_drop_succ]
  refine List.Perm.trans List.perm_middle.symm ?_
  rw [List.get_eq_getElem, List.getElem_cons_drop, List.take_append_drop]

theorem handsSum_set : ∀ (ps : List Player) (i : Nat) (p' : Player)
    (h : i < ps.length),
    ((ps.set i p').map handIds).sum + handIds (ps.get ⟨i, h⟩)
      = (ps.map handIds).sum + handIds p'
  | p :: rest, 0, p', _ => by
    simp [add_comm, add_left_comm, add_assoc]
  | p :: rest, i + 1, p', h => by
    have hi : i < rest.length := by simpa using Nat.lt_of_succ_lt_succ h
    have ih := handsSum_set rest i p' hi
    have hg : (p :: rest).get ⟨i + 1, h⟩ = rest.get ⟨i, hi⟩ := rfl
    simp only [List.set_cons_succ, List.map_cons, List.sum_cons, hg,
      add_assoc]
    rw [ih]

theorem handIds_erase (player : Player) (tid : String)
    (hlt : player.tiles.findIdx (fun t => t.id == tid)
      < player.tiles.length) :
    handIds player
      = handIds { player with
          tiles := player.tiles.eraseIdx
            (player.tiles.findIdx (fun t => t.id == tid)) }
        + {tid} := by
  have hid :
      (player.tiles.get ⟨player.tiles.findIdx (fun t => t.id == tid),
        hlt⟩).id = tid := by
    have := List.findIdx_get (w := hlt)
    simpa using this
  have hperm := perm_get_cons_eraseIdx player.tiles
    (player.tiles.findIdx (fun t => t.id == tid)) hlt
  have hmap := hperm.map Tile.id
  have hco := Multiset.coe_eq_coe.mpr hmap
  simp only [List.map_cons, hid] at hco
  rw [handIds, handIds, ← hco]
  simp [add_comm]

theorem tileIds_passBranch (s : GameState) :
    tileIds (passBranch s) = tileIds s := by
  simp only [passBranch, tileIds]
  split <;> rfl

theorem applyPlacement_fields (s : GameState) (m : GameMove)
    (pIdx tileIdx : Nat) (player : Player) :
    (applyPlacement s m pIdx tileIdx player).players
      = s.players.set pIdx
        { player with tiles := player.tiles.eraseIdx tileIdx } ∧
    (applyPlacement s m pIdx tileIdx player).boneyard = s.boneyard ∧
    ∃ pt : PlacedTile, pt.tile.id = m.tile.id ∧
      (applyPlacement s m pIdx tileIdx player).board
        = (match m.side with
           | .right => s.board ++ [pt]
           | .left => pt :: s.board) := by
  simp only [applyPlacement]
  split
  all_goals refine ⟨rfl, rfl, ?_⟩
  all_goals
    refine ⟨_, ?_, rfl⟩
  all_goals
    by_cases hbe : s.board.isEmpty
  all_goals cases m.side
  all_goals simp [hbe, flipTile]
  all_goals split <;> simp [flipTile]

theorem tileIds_applyPlacement (s : GameState) (m : GameMove)
    (player : Player)
    (hpl : s.players[s.players.findIdx (fun p => p.id == m.playerId)]?
      = some player)
    (hlt : player.tiles.findIdx (fun t => t.id == m.tile.id)
      < player.tiles.length) :
    tileIds (applyPlacement s m
      (s.players.findIdx (fun p => p.id == m.playerId))
      (player.tiles.findIdx (fun t => t.id == m.tile.id)) player)
      = tileIds s := by
  have hpLt := getElem?_some_lt hpl
  have hgetp := getElem?_some_get hpl hpLt
  obtain ⟨hP, hY, pt, hptid, hB⟩ := applyPlacement_fields s m
    (s.players.findIdx (fun p => p.id == m.playerId))
    (player.tiles.findIdx (fun t => t.id == m.tile.id)) player
  have h1 := handsSum_set s.players
    (s.players.findIdx (fun p => p.id == m.playerId))
    { player with
        tiles := player.tiles.eraseIdx
          (player.tiles.findIdx (fun t => t.id == m.tile.id)) } hpLt
  rw [hgetp] at h1
  have h2 := handIds_erase player m.tile.id hlt
  have h3 : (((match m.side with
        | .right => s.board ++ [pt]
        | .left => pt :: s.board).map
          (fun (q : PlacedTile) => q.tile.id) : List String) : Multiset String)
      = ((s.board.map (fun (q : PlacedTile) => q.tile.id) : List String) : Multiset String)
        + {m.tile.id} := by
    cases m.side <;> simp [hptid, add_comm]
  simp only [tileIds, hP, hY, hB, h3]
  refine add_right_cancel (show _ + handIds { player with
      tiles := player.tiles.eraseIdx
        (player.tiles.findIdx (fun t => t.id == m.tile.id)) } = _ from ?_)
  calc ((s.players.set (s.players.findIdx (fun p => p.id == m.playerId))
          { player with
              tiles := player.tiles.eraseIdx
                (player.tiles.findIdx (fun t => t.id == m.tile.id)) }).map
            handIds).sum
        + (((s.board.map (fun (q : PlacedTile) => q.tile.id) : List String) :
            Multiset String) + {m.tile.id})
        + ((s.boneyard.map Tile.id : List String) : Multiset String)
        + handIds { player with
            tiles := player.tiles.eraseIdx
              (player.tiles.findIdx (fun t => t.id == m.tile.id)) }
      = ((s.players.set (s.players.findIdx (fun p => p.id == m.playerId))
          { player with
              tiles := player.tiles.eraseIdx
                (player.tiles.findIdx (fun t => t.id == m.tile.id)) }).map
            handIds).sum
        + (handIds { player with
            tiles := player.tiles.eraseIdx
              (player.tiles.findIdx (fun t => t.id == m.tile.id)) }
           + {m.tile.id})
        + ((s.board.map (fun (q : PlacedTile) => q.tile.id) : List String) :
            Multiset String)
        + ((s.boneyard.map Tile.id : List String) : Multiset String) := by
        abel
    _ = (s.players.map handIds).sum + handIds { player with
            tiles := player.tiles.eraseIdx
              (player.tiles.findIdx (fun t => t.id == m.tile.id)) }
        + ((s.board.map (fun (q : PlacedTile) => q.tile.id) : List String) :
            Multiset String)
        + ((s.boneyard.map Tile.id : List String) : Multiset String) := by
        rw [← h2, h1]
    _ = (s.players.map handIds).sum
        + ((s.board.map (fun (q : PlacedTile) => q.tile.id) : List String) :
            Multiset String)
        + ((s.boneyard.map Tile.id : List String) : Multiset String)
        + handIds { player with
            tiles := player.tiles.eraseIdx
              (player.tiles.findIdx (fun t => t.id == m.tile.id)) } := by
        abel

theorem handsSum_set_append (s : GameState) (cp : Player) (t : Tile)
    (hcp : s.players[s.currentPlayerIndex]? = some cp) :
    ((s.players.set s.currentPlayerIndex
        { cp with tiles := cp.tiles ++ [t] }).map handIds).sum
      = (s.players.map handIds).sum + {t.id} := by
  have hpLt := getElem?_some_lt hcp
  have hget := getElem?_some_get hcp hpLt
  have h1 := handsSum_set s.players s.currentPlayerIndex
    { cp with tiles := cp.tiles ++ [t] } hpLt
  rw [hget] at h1
  have h2 : handIds { cp with tiles := cp.tiles ++ [t] }
      = handIds cp + {t.id} := by
    simp only [handIds, List.map_append, List.map_cons, List.map_nil]
    rfl
  rw [h2] at h1
  refine add_right_cancel (show _ + handIds cp = _ + handIds cp from ?_)
  calc ((s.players.set s.currentPlayerIndex
          { cp with tiles := cp.tiles ++ [t] }).map handIds).sum
        + handIds cp
      = (s.players.map handIds).sum + (handIds cp + {t.id}) := h1
    _ = (s.players.map handIds).sum + {t.id} + handIds cp := by abel

theorem boneyard_ids_dropLast (l : List Tile) (t : Tile)
    (hlast : l.getLast? = some t) :
    ((l.map Tile.id : List String) : Multiset String)
      = ((l.dropLast.map Tile.id : List String) : Multiset String)
        + {t.id} := by
  conv_lhs => rw [← List.dropLast_append_getLast? t hlast]
  simp only [List.map_append, List.map_cons, List.map_nil]
  rfl

/-- C10: every accepted operation (placement, pass, or draw through
either handler) conserves the multiset of tile identities spread over
hands, board, and boneyard. -/
theorem accepted_operations_conserve_tiles (sock : String) (m : GameMove)
    (s s' : GameState) :
    (makeMoveRun sock m s = (.accepted, s') → tileIds s' = tileIds s) ∧
    (drawTileRun sock s = (.accepted, s') → tileIds s' = tileIds s) ∧
    (drawTileRoute sock s = (.accepted, s') → tileIds s' = tileIds s) := by
  refine ⟨?_, ?_, ?_⟩
  · intro h
    by_cases hp : m.pass = true
    · obtain ⟨hs', _⟩ := makeMoveRun_accept_pass h hp
      rw [hs']
      exact tileIds_passBranch s
    · obtain ⟨player, hpl, hlt, _, hs'⟩ :=
        makeMoveRun_accept_place h (by simpa using hp)
      rw [hs']
      exact tileIds_applyPlacement s m player hpl hlt
  · intro h
    obtain ⟨cp, t, hcp, hlast, _, _, hs'⟩ := drawTileRun_accept h
    rw [hs']
    simp only [tileIds]
    rw [handsSum_set_append s cp t hcp, boneyard_ids_dropLast s.boneyard t
      hlast]
    abel
  · intro h
    obtain ⟨cp, t, hcp, hlast, _, _, hs'⟩ := drawTileRoute_accept h
    have hbone := boneyard_ids_dropLast s.boneyard t hlast
    have hhands := handsSum_set_append s cp t hcp
    by_cases hmove :
        canPlayerMove { cp with tiles := cp.tiles ++ [t] } s.boardEnds = true
    · rw [if_pos hmove] at hs'
      rw [hs']
      simp only [tileIds]
      rw [hhands, hbone]
      abel
    · rw [if_neg hmove] at hs'
      rw [hs']
      simp only [tileIds]
      rw [hhands, hbone]
      abel

/-- Witness for C10: A's opening placement of 2-3 in `stEmpty` keeps the
tile-identity multiset unchanged. -/
theorem accepted_operations_conserve_tiles_witness :
    tileIds (makeMoveRun "A" ⟨"A", tile23, .left, false⟩ stEmpty).2
      = tileIds stEmpty :=
  (accepted_operations_conserve_tiles "A" ⟨"A", tile23, .left, false⟩
    stEmpty (makeMoveRun "A" ⟨"A", tile23, .left, false⟩ stEmpty).2).1
    (by decide)

/-! ## Placement validation (C7) -/

/-- C7: on the acting participant's turn a non-pass placement is
rejected TileNotInHand when the named tile id is not in the participant's
hand; with the tile in hand it is accepted outright on an empty board,
rejected InvalidSide when the non-empty board has no end on the requested
side, rejected TileDoesNotMatch when neither pip value equals the end's
value, and accepted when one does. -/
theorem placement_validation (sock : String) (m : GameMove)
    (s : GameState) (cp player : Player)
    (hcp : s.players[s.currentPlayerIndex]? = some cp)
    (hsock : cp.id = sock)
    (hpl : s.players[s.players.findIdx (fun p => p.id == m.playerId)]?
      = some player)
    (hp : m.pass = false)
    (hlink : s.board = [] ↔ s.boardEnds = []) :
    ((∀ t ∈ player.tiles, t.id ≠ m.tile.id) →
      makeMoveRun sock m s = (.rejected .tileNotInHand, s)) ∧
    (s.board = [] → (∃ t ∈ player.tiles, t.id = m.tile.id) →
      (makeMoveRun sock m s).1 = .accepted) ∧
    (s.board ≠ [] → (∃ t ∈ player.tiles, t.id = m.tile.id) →
      s.boardEnds.find? (fun q => q.side == m.side) = none →
      makeMoveRun sock m s = (.rejected .invalidSide, s)) ∧
    (∀ e, s.board ≠ [] → (∃ t ∈ player.tiles, t.id = m.tile.id) →
      s.boardEnds.find? (fun q => q.side == m.side) = some e →
      m.tile.left ≠ e.value → m.tile.right ≠ e.value →
      makeMoveRun sock m s = (.rejected .tileDoesNotMatch, s)) ∧
    (∀ e, (∃ t ∈ player.tiles, t.id = m.tile.id) →
      s.boardEnds.find? (fun q => q.side == m.side) = some e →
      (m.tile.left = e.value ∨ m.tile.right = e.value) →
      (makeMoveRun sock m s).1 = .accepted) := by
  have hsockF : ¬(cp.id != sock) = true := by simp [hsock]
  refine ⟨?_, ?_, ?_, ?_, ?_⟩
  · intro hnot
    have htneg : ¬(player.tiles.findIdx (fun t => t.id == m.tile.id)
        < player.tiles.length) := by
      rw [List.findIdx_lt_length]
      simp only [beq_iff_eq]
      push_neg
      exact hnot
    simp [makeMoveRun, placeBranch, hcp, hsockF, hpl, hp, htneg]
  · intro hboard hin
    have hends : s.boardEnds = [] := hlink.mp hboard
    have htlt : player.tiles.findIdx (fun t => t.id == m.tile.id)
        < player.tiles.length := by
      rw [List.findIdx_lt_length]
      simpa only [beq_iff_eq] using hin
    simp [makeMoveRun, placeBranch, hcp, hsockF, hpl, hp, htlt, hends]
  · intro hboard hin hfind
    have hEndsNe : s.boardEnds ≠ [] := fun he => hboard (hlink.mpr he)
    have hlen : s.boardEnds.length ≠ 0 :=
      fun h0 => hEndsNe (List.length_eq_zero.mp h0)
    have htlt : player.tiles.findIdx (fun t => t.id == m.tile.id)
        < player.tiles.length := by
      rw [List.findIdx_lt_length]
      simpa only [beq_iff_eq] using hin
    simp [makeMoveRun, placeBranch, hcp, hsockF, hpl, hp, htlt, hlen,
      hfind]
  · intro e hboard hin hfind hleft hright
    have hEndsNe : s.boardEnds ≠ [] := fun he => hboard (hlink.mpr he)
    have hlen : s.boardEnds.length ≠ 0 :=
      fun h0 => hEndsNe (List.length_eq_zero.mp h0)
    have htlt : player.tiles.findIdx (fun t => t.id == m.tile.id)
        < player.tiles.length := by
      rw [List.findIdx_lt_length]
      simpa only [beq_iff_eq] using hin
    simp [makeMoveRun, placeBranch, hcp, hsockF, hpl, hp, htlt, hlen,
      hfind, hleft, hright]
  · intro e hin hfind hmatch
    have hEndsNe : s.boardEnds ≠ [] := by
      intro he
      rw [he] at hfind
      exact Option.noConfusion hfind
    have hlen : s.boardEnds.length ≠ 0 :=
      fun h0 => hEndsNe (List.length_eq_zero.mp h0)
    have htlt : player.tiles.findIdx (fun t => t.id == m.tile.id)
        < player.tiles.length := by
      rw [List.findIdx_lt_length]
      simpa only [beq_iff_eq] using hin
    have hm : (m.tile.left == e.value || m.tile.right == e.value) = true := by
      simpa using hmatch
    simp [makeMoveRun, placeBranch, hcp, hsockF, hpl, hp, htlt, hlen,
      hfind, hm]

/-- Witness for C7: C's tile 2-5 matches the right end 5 of `stFive` and
the placement is accepted; B's tile 3-4 matches neither end and is
rejected. -/
theorem placement_validation_witness :
    (makeMoveRun "C" ⟨"C", tile25, .right, false⟩ stFive).1 = .accepted :=
  (placement_validation "C" ⟨"C", tile25, .right, false⟩ stFive playerC
      playerC (by decide) rfl (by decide) rfl (by decide)).2.2.2.2
    ⟨5, ⟨400, 300⟩, .right⟩ ⟨tile25, by decide, rfl⟩ (by decide)
    (Or.inl rfl)

/-! ## Empty-hand win (C3) -/

/-- C3 (amended): if an accepted placement leaves the acting
participant's hand empty, the resulting state is concluded
(gameMode finished, terminal flag set) with that participant as winner. -/
theorem empty_hand_wins (sock : String) (m : GameMove) (s s' : GameState)
    (player q : Player)
    (hacc : makeMoveRun sock m s = (.accepted, s'))
    (hp : m.pass = false)
    (hpl : s.players[s.players.findIdx (fun p => p.id == m.playerId)]?
      = some player)
    (hq : s'.players[s.players.findIdx (fun p => p.id == m.playerId)]?
      = some q)
    (hqe : q.tiles = []) :
    s'.gameMode = .finished ∧ s'.isGameOver = true ∧
    s'.winner = some player.id ∧ q.id = player.id := by
  obtain ⟨player', hpl', hlt, hval, hs'⟩ := makeMoveRun_accept_place hacc hp
  have hpe : player = player' := by
    rw [hpl'] at hpl
    exact (Option.some.inj hpl).symm
  subst hpe
  have hpLt := getElem?_some_lt hpl'
  obtain ⟨hP, _, _, _, _⟩ := applyPlacement_fields s m
    (s.players.findIdx (fun p => p.id == m.playerId))
    (player.tiles.findIdx (fun t => t.id == m.tile.id)) player
  rw [hs', hP, List.getElem?_set_self hpLt] at hq
  injection hq with hqeq
  have hnil : player.tiles.eraseIdx
      (player.tiles.findIdx (fun t => t.id == m.tile.id)) = [] := by
    have := congrArg Player.tiles hqeq
    simpa [hqe] using this.symm
  have hempty : (player.tiles.eraseIdx
      (player.tiles.findIdx (fun t => t.id == m.tile.id))).isEmpty
      = true := by
    rw [hnil]
    rfl
  refine ⟨?_, ?_, ?_, ?_⟩
  · rw [hs']
    simp [applyPlacement, hempty]
  · rw [hs']
    simp [applyPlacement, hempty]
  · rw [hs']
    simp [applyPlacement, hempty]
  · rw [← hqeq]

/-- Witness for C3 (amended): A places their only tile 2-3 on the empty
board of `stEmpty` and the match concludes with A as winner. -/
theorem empty_hand_wins_witness :
    (makeMoveRun "A" ⟨"A", tile23, .left, false⟩ stEmpty).2.gameMode
      = .finished ∧
    (makeMoveRun "A" ⟨"A", tile23, .left, false⟩ stEmpty).2.isGameOver
      = true ∧
    (makeMoveRun "A" ⟨"A", tile23, .left, false⟩ stEmpty).2.winner
      = some playerA.id ∧
    (⟨"A", "Alice", [], 0, false, true⟩ : Player).id = playerA.id :=
  empty_hand_wins "A" ⟨"A", tile23, .left, false⟩ stEmpty
    (makeMoveRun "A" ⟨"A", tile23, .left, false⟩ stEmpty).2 playerA
    ⟨"A", "Alice", [], 0, false, true⟩ (by decide) rfl (by decide)
    (by decide) rfl

/-- Counterexample for C3 as stated: `stDone` is already concluded
(A won with an empty hand), yet the `make-move` handler still accepts
B's pass and mutates the state — no phase check exists. -/
theorem concluded_state_still_accepts_moves :
    stDone.gameMode = .finished ∧ stDone.isGameOver = true ∧
    (makeMoveRun "B" passB stDone).1 = .accepted ∧
    (makeMoveRun "B" passB stDone).2 ≠ stDone := by decide

/-! ## Placement geometry (C1, C2) -/

theorem applyPlacement_empty (s : GameState) (m : GameMove)
    (pIdx tIdx : Nat) (player : Player) (hb : s.board = []) :
    ∃ pt : PlacedTile, pt.tile = m.tile ∧
      (applyPlacement s m pIdx tIdx player).board = [pt] ∧
      (applyPlacement s m pIdx tIdx player).boardEnds
        = [{ value := m.tile.left, position := pt.position, side := .left },
           { value := m.tile.right, position := pt.position,
             side := .right }] := by
  refine ⟨⟨m.tile, ⟨400, 300⟩, "horizontal", 0⟩, rfl, ?_, ?_⟩ <;>
    simp only [applyPlacement, hb] <;>
    cases m.side <;>
    split <;>
    rfl

theorem getLast?_cons_append_singleton {α : Type} (a : α) (l : List α)
    (x : α) : (a :: (l ++ [x])).getLast? = some x := by
  rw [← List.cons_append]
  exact List.getLast?_concat _

theorem applyPlacement_right (s : GameState) (m : GameMove)
    (pIdx tIdx : Nat) (player : Player) (e : BoardEnd) (b0 : PlacedTile)
    (bs : List PlacedTile)
    (hside : m.side = .right)
    (hboard : s.board = b0 :: bs)
    (hfind : s.boardEnds.find? (fun q => q.side == m.side) = some e) :
    ∃ pt : PlacedTile,
      pt.tile = (if m.tile.right == e.value && !(m.tile.left == e.value)
        then flipTile m.tile else m.tile) ∧
      (applyPlacement s m pIdx tIdx player).board = s.board ++ [pt] ∧
      (applyPlacement s m pIdx tIdx player).boardEnds
        = [{ value := b0.tile.left, position := b0.position, side := .left },
           { value := pt.tile.right, position := pt.position,
             side := .right }] := by
  rw [hside] at hfind
  refine ⟨⟨(if m.tile.right == e.value && !(m.tile.left == e.value)
      then flipTile m.tile else m.tile),
      ⟨(bs.getLast?.getD b0).position.x + 65,
       (bs.getLast?.getD b0).position.y⟩, "horizontal", 0⟩, rfl, ?_, ?_⟩ <;>
    simp only [applyPlacement, hboard, hside, hfind, List.isEmpty_cons,
      Bool.false_eq_true, if_false, Option.map_some, Option.getD_some,
      List.getLast?_cons] <;>
    split <;>
    simp [List.getLast?_concat, List.length_append,
      getLast?_cons_append_singleton]

theorem applyPlacement_left (s : GameState) (m : GameMove)
    (pIdx tIdx : Nat) (player : Player) (e : BoardEnd) (b0 : PlacedTile)
    (bs : List PlacedTile)
    (hside : m.side = .left)
    (hboard : s.board = b0 :: bs)
    (hfind : s.boardEnds.find? (fun q => q.side == m.side) = some e) :
    ∃ pt : PlacedTile,
      pt.tile = (if m.tile.left == e.value && !(m.tile.right == e.value)
        then flipTile m.tile else m.tile) ∧
      (applyPlacement s m pIdx tIdx player).board = pt :: s.board ∧
      (applyPlacement s m pIdx tIdx player).boardEnds
        = [{ value := pt.tile.left, position := pt.position, side := .left },
           { value := (bs.getLast?.getD b0).tile.right,
             position := (bs.getLast?.getD b0).position,
             side := .right }] := by
  rw [hside] at hfind
  refine ⟨⟨(if m.tile.left == e.value && !(m.tile.right == e.value)
      then flipTile m.tile else m.tile),
      ⟨b0.position.x - 65, b0.position.y⟩, "horizontal", 0⟩, rfl, ?_, ?_⟩ <;>
    simp only [applyPlacement, hboard, hside, hfind, List.isEmpty_cons,
      Bool.false_eq_true, if_false, Option.map_some, Option.getD_some,
      List.head?_cons] <;>
    split <;>
    simp [List.getLast?_cons]

theorem placedTileValue_right (t : Tile) (v : Nat)
    (hm : t.left = v ∨ t.right = v) :
    (if t.right == v && !(t.left == v) then flipTile t else t).left = v ∧
    (if t.right == v && !(t.left == v) then flipTile t else t).right
      = otherValue t v ∧
    (if t.right == v && !(t.left == v) then flipTile t else t).id = t.id ∧
    (t.left = t.right →
      (if t.right == v && !(t.left == v) then flipTile t else t) = t) := by
  obtain ⟨tid, tl, tr, td⟩ := t
  simp only at hm
  by_cases h1 : tl = v <;> by_cases h2 : tr = v
  · simp [flipTile, otherValue, h1, h2]
  · simp [flipTile, otherValue, h1, h2]
  · simp only [flipTile, otherValue, h1, h2]
    refine ⟨by simp [h1, h2], by simp [h1, h2], by simp [h1, h2], ?_⟩
    intro heq
    exact heq.elim
  · rcases hm with hm | hm
    · exact absurd hm h1
    · exact absurd hm h2

theorem placedTileValue_left (t : Tile) (v : Nat)
    (hm : t.left = v ∨ t.right = v) :
    (if t.left == v && !(t.right == v) then flipTile t else t).right = v ∧
    (if t.left == v && !(t.right == v) then flipTile t else t).left
      = otherValue t v ∧
    (if t.left == v && !(t.right == v) then flipTile t else t).id = t.id ∧
    (t.left = t.right →
      (if t.left == v && !(t.right == v) then flipTile t else t) = t) := by
  obtain ⟨tid, tl, tr, td⟩ := t
  simp only at hm
  by_cases h1 : tl = v <;> by_cases h2 : tr = v
  · simp [flipTile, otherValue, h1, h2]
  · simp only [flipTile, otherValue, h1, h2]
    refine ⟨by simp [h1, h2], by simp [h1, h2], by simp [h1, h2], ?_⟩
    intro heq
    exact absurd heq.symm h2
  · simp [flipTile, otherValue, h1, h2]
  · rcases hm with hm | hm
    · exact absurd hm h1
    · exact absurd hm h2

/-- C1: an accepted placement on a non-empty board orients the tile so
that its chain-adjacent value equals the targeted end's value, its other
value faces outward and becomes the new end on that side, and a double is
never swapped. -/
theorem placement_orientation (sock : String) (m : GameMove)
    (s s' : GameState) (e : BoardEnd)
    (hacc : makeMoveRun sock m s = (.accepted, s')) (hp : m.pass = false)
    (hb : s.board ≠ [])
    (hfind : s.boardEnds.find? (fun q => q.side == m.side) = some e) :
    ∃ pt, insertedTile s' m.side = some pt ∧
      pt.tile.id = m.tile.id ∧
      chainAdjacentValue m.side pt.tile = e.value ∧
      outwardValue m.side pt.tile = otherValue m.tile e.value ∧
      sideEndValue s' m.side = some (otherValue m.tile e.value) ∧
      (m.tile.left = m.tile.right → pt.tile = m.tile) := by
  obtain ⟨player, hpl, hlt, hval, hs'⟩ := makeMoveRun_accept_place hacc hp
  obtain ⟨b0, bs, hboard⟩ := List.exists_cons_of_ne_nil hb
  have hmatch : m.tile.left = e.value ∨ m.tile.right = e.value := by
    rcases hval with h0 | ⟨e', hfind', hm'⟩
    · rw [List.length_eq_zero.mp h0] at hfind
      exact absurd hfind (by simp)
    · rw [hfind] at hfind'
      rw [← Option.some.inj hfind'] at hm'
      exact hm'
  cases hside : m.side
  case left =>
    obtain ⟨pt, hpt, hb', he'⟩ := applyPlacement_left s m
      (s.players.findIdx (fun p => p.id == m.playerId))
      (player.tiles.findIdx (fun t => t.id == m.tile.id)) player e b0 bs
      hside hboard hfind
    have hvals := placedTileValue_left m.tile e.value hmatch
    rw [← hpt] at hvals
    refine ⟨pt, ?_, hvals.2.2.1, ?_, ?_, ?_, hvals.2.2.2⟩
    · rw [hs', insertedTile, hb']
      rfl
    · simpa [chainAdjacentValue] using hvals.1
    · simpa [outwardValue] using hvals.2.1
    · rw [hs']
      have hsl : (Side.left == Side.left) = true := rfl
      simp only [sideEndValue, he', List.find?, hsl]
      simp [hvals.2.1]
  case right =>
    obtain ⟨pt, hpt, hb', he'⟩ := applyPlacement_right s m
      (s.players.findIdx (fun p => p.id == m.playerId))
      (player.tiles.findIdx (fun t => t.id == m.tile.id)) player e b0 bs
      hside hboard hfind
    have hvals := placedTileValue_right m.tile e.value hmatch
    rw [← hpt] at hvals
    refine ⟨pt, ?_, hvals.2.2.1, ?_, ?_, ?_, hvals.2.2.2⟩
    · rw [hs', insertedTile, hb']
      exact List.getLast?_concat _
    · simpa [chainAdjacentValue] using hvals.1
    · simpa [outwardValue] using hvals.2.1
    · rw [hs']
      have hsl : (Side.left == Side.right) = false := rfl
      have hsr : (Side.right == Side.right) = true := rfl
      simp only [sideEndValue, he', List.find?, hsl, hsr]
      simp [hvals.2.1]

/-- Witness for C1: C places 2-5 (declared with left = 5) on the right
end 5 of `stFive`; the tile is flipped so 5 touches the chain and 2
becomes the new right end. -/
theorem placement_orientation_witness :
    ∃ pt,
      insertedTile (makeMoveRun "C" ⟨"C", tile25, .right, false⟩ stFive).2
        Side.right = some pt ∧
      pt.tile.id = tile25.id ∧
      chainAdjacentValue Side.right pt.tile = 5 ∧
      outwardValue Side.right pt.tile = otherValue tile25 5 ∧
      sideEndValue (makeMoveRun "C" ⟨"C", tile25, .right, false⟩ stFive).2
        Side.right = some (otherValue tile25 5) ∧
      (tile25.left = tile25.right → pt.tile = tile25) :=
  placement_orientation "C" ⟨"C", tile25, .right, false⟩ stFive
    (makeMoveRun "C" ⟨"C", tile25, .right, false⟩ stFive).2
    ⟨5, ⟨400, 300⟩, .right⟩ (by decide) rfl (by decide) (by decide)

/-! ## Board invariant (C2) -/

theorem place_preserves_board_inv (sock : String) (m : GameMove)
    (s s' : GameState)
    (hacc : makeMoveRun sock m s = (.accepted, s')) (hp : m.pass = false)
    (hchain : chainOk s.board) (hends : endsOk s) :
    chainOk s'.board ∧ endsOk s' := by
  obtain ⟨player, hpl, hlt, hval, hs'⟩ := makeMoveRun_accept_place hacc hp
  rcases hbb : s.board with _ | ⟨b0, bs⟩
  · obtain ⟨pt, hpt, hb', he'⟩ := applyPlacement_empty s m
      (s.players.findIdx (fun p => p.id == m.playerId))
      (player.tiles.findIdx (fun t => t.id == m.tile.id)) player hbb
    constructor
    · rw [hs', chainOk, hb']
      exact List.chain'_singleton _
    · rw [hs']
      simp [endsOk, hb', he', hpt]
  · have hlastT : s.board.getLast? = some (bs.getLast?.getD b0) := by
      rw [hbb]
      exact List.getLast?_cons
    have hEnds : s.boardEnds =
        [{ value := b0.tile.left, position := b0.position, side := .left },
         { value := (bs.getLast?.getD b0).tile.right,
           position := (bs.getLast?.getD b0).position, side := .right }]
        := by
      have h0 := hends
      rw [endsOk] at h0
      simpa only [hbb, List.head?_cons, List.getLast?_cons] using h0
    rcases hval with h0 | ⟨e, hfind, hmatch⟩
    · rw [hEnds] at h0
      simp at h0
    · cases hside : m.side
      case left =>
        obtain ⟨pt, hpt, hb', he'⟩ := applyPlacement_left s m
          (s.players.findIdx (fun p => p.id == m.playerId))
          (player.tiles.findIdx (fun t => t.id == m.tile.id)) player e b0
          bs hside hbb hfind
        have hvals := placedTileValue_left m.tile e.value hmatch
        rw [← hpt] at hvals
        have hE : e = ⟨b0.tile.left, b0.position, Side.left⟩ := by
          rw [hside, hEnds] at hfind
          have hsl : (Side.left == Side.left) = true := rfl
          simp only [List.find?, hsl] at hfind
          exact (Option.some.inj hfind).symm
        constructor
        · rw [hs', chainOk, hb', hbb]
          rw [List.chain'_cons]
          refine ⟨?_, ?_⟩
          · rw [hvals.1, hE]
          · rw [← hbb]
            exact hchain
        · rw [hs', endsOk, hb', he', hbb]
          simp only [List.head?_cons, List.getLast?_cons, Option.getD_some]
      case right =>
        obtain ⟨pt, hpt, hb', he'⟩ := applyPlacement_right s m
          (s.players.findIdx (fun p => p.id == m.playerId))
          (player.tiles.findIdx (fun t => t.id == m.tile.id)) player e b0
          bs hside hbb hfind
        have hvals := placedTileValue_right m.tile e.value hmatch
        rw [← hpt] at hvals
        have hE : e = ⟨(bs.getLast?.getD b0).tile.right,
            (bs.getLast?.getD b0).position, Side.right⟩ := by
          rw [hside, hEnds] at hfind
          have hsl : (Side.left == Side.right) = false := rfl
          have hsr : (Side.right == Side.right) = true := rfl
          simp only [List.find?, hsl, hsr] at hfind
          exact (Option.some.inj hfind).symm
        constructor
        · rw [hs', chainOk, hb', hbb]
          rw [List.chain'_append]
          refine ⟨?_, List.chain'_singleton _, ?_⟩
          · rw [← hbb]
            exact hchain
          · intro x hx y hy
            rw [List.getLast?_cons] at hx
            rw [List.head?_cons] at hy
            have hx2 : bs.getLast?.getD b0 = x :=
              Option.some.inj (Option.mem_def.mp hx)
            have hy2 : pt = y := Option.some.inj (Option.mem_def.mp hy)
            rw [← hx2, ← hy2, hvals.1, hE]
        · rw [hs', endsOk, hb', he', hbb]
          simp only [List.cons_append, List.head?_cons,
            getLast?_cons_append_singleton]

/-- C2: in every state reachable from an empty board by accepted
placements, adjacent placed tiles have equal touching pip values, and
the board ends are exactly the outward values (left value of the
leftmost, right value of the rightmost placed tile). -/
theorem reachable_chain_and_ends (s : GameState) (h : Reachable s) :
    chainOk s.board ∧ endsOk s := by
  induction h with
  | start s hb he =>
    constructor
    · rw [chainOk, hb]
      exact List.chain'_nil
    · rw [endsOk, hb, he]
      rfl
  | place s sock m s' hs hp hacc ih =>
    exact place_preserves_board_inv sock m s s' hacc hp ih.1 ih.2

/-- Witness for C2: the state after A's opening placement in `stEmpty`
is reachable and satisfies both board invariants. -/
theorem reachable_chain_and_ends_witness :
    chainOk (makeMoveRun "A" ⟨"A", tile23, .left, false⟩ stEmpty).2.board ∧
    endsOk (makeMoveRun "A" ⟨"A", tile23, .left, false⟩ stEmpty).2 :=
  reachable_chain_and_ends
    (makeMoveRun "A" ⟨"A", tile23, .left, false⟩ stEmpty).2
    (Reachable.place stEmpty "A" ⟨"A", tile23, .left, false⟩
      (makeMoveRun "A" ⟨"A", tile23, .left, false⟩ stEmpty).2
      (Reachable.start stEmpty rfl rfl) rfl (by decide))

end Dominoes
